import Mathlib

/-!
Shallow embedding of the Kanban board script (the variant with input
validation and safe JSON parsing).  The script keeps four global arrays of
task strings (`backlogListArray`, `progressListArray`, `completeListArray`,
`onHoldListArray`), mirrors them into four visual list containers, and
persists each array under its own localStorage key after every mutation.

Modelling conventions:
* A JS array slot holds either a string, the JS value `null` (possible in
  data parsed from storage), or a hole produced by `delete arr[index]`.
  `Array.prototype.forEach` and `Array.prototype.filter` both skip holes;
  `filter(item => item !== null)` additionally drops `null` values.
* A localStorage slot is modelled by the shape of its raw string: absent
  (`getItem` returns `null`), the empty string (falsy at `getItem`, and
  `JSON.parse("")` throws), a non-empty string that is not valid JSON
  (`JSON.parse` throws), or a non-empty valid-JSON string whose parse is an
  array of strings and nulls — the only JSON shapes this program ever
  writes or meaningfully reads back.
* The visual tree is modelled by the list of `textContent` values of each
  column's children, in visual top-to-bottom order.
* `draggedItem` (a captured DOM node reference) is modelled by the position
  of the grabbed element.  Re-rendering a column replaces every list
  element with a fresh node, after which the captured reference can no
  longer be reference-equal to any live element; the model represents that
  invalidation by clearing the positional reference when the columns are
  re-rendered.
-/

namespace Kanban

/-- One slot of an in-memory JS column array: a string item, the JS value
`null`, or a hole left by `delete arr[index]`. -/
inductive JItem : Type
  | hole
  | jnull
  | jstr (s : String)
deriving DecidableEq

/-- The shape of one persisted localStorage slot, classified by how
`getItem` truthiness and `JSON.parse` treat its raw string value. -/
inductive Cell : Type
  | absent
  | rawEmpty
  | corrupt
  | jsonOf (items : List JItem)
deriving DecidableEq

/-- The browser's localStorage, restricted to the four keys the script
uses, plus a flag modelling storage access throwing (storage disabled,
quota exceeded), which the script catches in `getSavedColumns` and
`updateSavedColumns`. -/
structure Storage where
  backlogItems : Cell
  progressItems : Cell
  completeItems : Cell
  onHoldItems : Cell
  accessThrows : Bool
deriving DecidableEq

/-- The four fixed columns, identified in the script by indices 0–3. -/
inductive Col : Type
  | backlog
  | progress
  | complete
  | onHold
deriving DecidableEq, Fintype

/-- The script's whole mutable state: the four in-memory arrays, the four
visual column children lists (`textContent` of each child, top to bottom),
the storage, the `updatedOnLoad` flag, the dragged-element reference
(modelled positionally), and the log of `alert` messages shown. -/
structure AppState where
  backlogListArray : List JItem
  progressListArray : List JItem
  completeListArray : List JItem
  onHoldListArray : List JItem
  backlogList : List String
  progressList : List String
  completeList : List String
  onHoldList : List String
  storage : Storage
  updatedOnLoad : Bool
  draggedItem : Option (Col × Nat)
  alerts : List String
deriving DecidableEq

/-- The in-memory array of a column (`listArrays[column]`; the script's
`listArrays` is refreshed from the four globals at the end of every
`updateDOM`, so at the start of each handler it aliases them). -/
def listArray (s : AppState) : Col → List JItem
  | .backlog => s.backlogListArray
  | .progress => s.progressListArray
  | .complete => s.completeListArray
  | .onHold => s.onHoldListArray

/-- The visual children texts of a column (`listColumns[column]`). -/
def listColumn (s : AppState) : Col → List String
  | .backlog => s.backlogList
  | .progress => s.progressList
  | .complete => s.completeList
  | .onHold => s.onHoldList

/-- The persisted cell for a column's key
(`backlogItems` / `progressItems` / `completeItems` / `onHoldItems`). -/
def storageCell (s : AppState) : Col → Cell
  | .backlog => s.storage.backlogItems
  | .progress => s.storage.progressItems
  | .complete => s.storage.completeItems
  | .onHold => s.storage.onHoldItems

/-- Replace one column's in-memory array. -/
def setListArray (s : AppState) (c : Col) (l : List JItem) : AppState :=
  match c with
  | .backlog => { s with backlogListArray := l }
  | .progress => { s with progressListArray := l }
  | .complete => { s with completeListArray := l }
  | .onHold => { s with onHoldListArray := l }

/-- Replace one column's visual children list. -/
def setListColumn (s : AppState) (c : Col) (l : List String) : AppState :=
  match c with
  | .backlog => { s with backlogList := l }
  | .progress => { s with progressList := l }
  | .complete => { s with completeList := l }
  | .onHold => { s with onHoldList := l }

/-- Model of `safeJSONParse`: `JSON.parse` wrapped in try/catch, returning `null`
on failure.  An absent slot reads as `undefined`, and
`JSON.parse(undefined)` throws; so do the empty string and any other
non-JSON text. -/
def safeJSONParse : Cell → Option (List JItem)
  | .absent => none
  | .rawEmpty => none
  | .corrupt => none
  | .jsonOf items => some items

/-- Truthiness of `localStorage.getItem("...")`: `null` (absent) and the
empty string are falsy; every other string is truthy. -/
def cellTruthy : Cell → Bool
  | .absent => false
  | .rawEmpty => false
  | .corrupt => true
  | .jsonOf _ => true

/-- One column's value in `getSavedColumns`:
`safeJSONParse(localStorage.key) || []`.  A parsed array (even `[]`) is
truthy in JS, so a successful parse is returned unchanged and only a
failed parse (`null`) falls back to `[]`. -/
def loadColumn (c : Cell) : List JItem :=
  (safeJSONParse c).getD []

def seedBacklog : List JItem :=
  [.jstr "Release the course", .jstr "Sit back and relax"]

def seedProgress : List JItem :=
  [.jstr "Work on projects", .jstr "Listen to music"]

def seedComplete : List JItem :=
  [.jstr "Being cool", .jstr "Getting stuff done"]

def seedOnHold : List JItem :=
  [.jstr "Being uncool"]

/-- The literal default value for one column. -/
def seedArray : Col → List JItem
  | .backlog => seedBacklog
  | .progress => seedProgress
  | .complete => seedComplete
  | .onHold => seedOnHold

/-- Assign the literal default values to the four arrays (the body of both
`else`/`catch` fallbacks in `getSavedColumns`). -/
def setSeeds (s : AppState) : AppState :=
  { s with
    backlogListArray := seedBacklog
    progressListArray := seedProgress
    completeListArray := seedComplete
    onHoldListArray := seedOnHold }

/-- Model of `getSavedColumns`: inside try/catch, if `getItem("backlogItems")` is
truthy, load each of the four arrays from its own key via
`safeJSONParse(...) || []`; otherwise (or if storage access throws) assign
the literal defaults. -/
def getSavedColumns (s : AppState) : AppState :=
  if s.storage.accessThrows then setSeeds s
  else if cellTruthy s.storage.backlogItems then
    { s with
      backlogListArray := loadColumn s.storage.backlogItems
      progressListArray := loadColumn s.storage.progressItems
      completeListArray := loadColumn s.storage.completeItems
      onHoldListArray := loadColumn s.storage.onHoldItems }
  else setSeeds s

/-- Serialization of one array slot by `JSON.stringify`: holes and `null` both serialize to
the JSON text `null`; strings serialize to JSON strings. -/
def encodeItem : JItem → JItem
  | .jstr s => .jstr s
  | _ => .jnull

/-- The cell written by `localStorage.setItem(key, JSON.stringify(arr))`:
always a non-empty valid-JSON string denoting the serialized array. -/
def storeEncode (a : List JItem) : Cell :=
  .jsonOf (a.map encodeItem)

/-- Model of `updateSavedColumns`: inside try/catch, write each array to its key as
JSON.  If storage access throws, the error is logged and nothing is
written. -/
def updateSavedColumns (s : AppState) : AppState :=
  if s.storage.accessThrows then s
  else
    { s with storage :=
      { s.storage with
        backlogItems := storeEncode s.backlogListArray
        progressItems := storeEncode s.progressListArray
        completeItems := storeEncode s.completeListArray
        onHoldItems := storeEncode s.onHoldListArray } }

/-- Model of `filterArray`, i.e. `array.filter(item => item !== null)`.  `filter` skips
holes outright and the predicate removes `null` values, so only string
slots survive. -/
def filterArray (a : List JItem) : List JItem :=
  a.filter fun it =>
    match it with
    | .jstr _ => true
    | _ => false

/-- The children texts produced by rendering one array
(`arr.forEach((item, index) => createItemEl(col, c, item, index))`):
`forEach` skips holes, and `textContent = null` yields the empty text. -/
def renderColumn : List JItem → List String
  | [] => []
  | .hole :: rest => renderColumn rest
  | .jnull :: rest => "" :: renderColumn rest
  | .jstr s :: rest => s :: renderColumn rest

def MAX_CHARS : Nat := 100

/-- Whitespace as stripped by JS `String.prototype.trim`. -/
def isWSChar (c : Char) : Bool := c.isWhitespace

/-- JS `String.prototype.trim`: strip whitespace from both ends. -/
def jsTrim (s : String) : String :=
  ⟨List.rdropWhile isWSChar (List.dropWhile isWSChar s.data)⟩

/-- Model of `validateItemText`: reject (with an `alert`) text longer than
`MAX_CHARS`; silently reject text that is empty after trimming.  Returns
the verdict together with the alert messages emitted. -/
def validateItemText (text : String) : Bool × List String :=
  if text.length > MAX_CHARS then
    (false, ["Task text cannot exceed 100 characters"])
  else if (jsTrim text).length = 0 then (false, [])
  else (true, [])

/-- The first line of `updateDOM`:
`if (!updatedOnLoad) getSavedColumns();`. -/
def checkLoad (s : AppState) : AppState :=
  if s.updatedOnLoad then s else getSavedColumns s

/-- The body of `updateDOM` between the load check and the final
`updateSavedColumns` call: re-render all four columns from the
(unfiltered) arrays, then filter the arrays, then mark `updatedOnLoad`.
Re-rendering replaces every list element with a fresh node, so a
previously captured `draggedItem` reference can no longer equal any live
element; the model clears the positional reference to reflect that. -/
def redraw (s0 : AppState) : AppState :=
  { s0 with
    backlogList := renderColumn s0.backlogListArray
    progressList := renderColumn s0.progressListArray
    completeList := renderColumn s0.completeListArray
    onHoldList := renderColumn s0.onHoldListArray
    backlogListArray := filterArray s0.backlogListArray
    progressListArray := filterArray s0.progressListArray
    completeListArray := filterArray s0.completeListArray
    onHoldListArray := filterArray s0.onHoldListArray
    draggedItem := none
    updatedOnLoad := true }

/-- Model of `updateDOM`: run `getSavedColumns` once on first call, re-render the
columns and filter the arrays, and call `updateSavedColumns`. -/
def updateDOM (s : AppState) : AppState :=
  updateSavedColumns (redraw (checkLoad s))

/-- Model of `updateItem(index, column)`, fired on focus loss of an editable item.
By handler entry the element's `textContent` already shows the user's
edit `t`, so the model first records it in the visual list.  If the
element at that position is the captured `draggedItem`, the update is
skipped entirely; otherwise an empty text deletes the array slot
(`delete selectedArray[index]`, leaving a hole) and a non-empty text
overwrites it, followed by `updateDOM`. -/
def updateItem (s : AppState) (index : Nat) (column : Col) (t : String) :
    AppState :=
  let s1 := setListColumn s column ((listColumn s column).set index t)
  if s1.draggedItem = some (column, index) then s1
  else if t = "" then
    updateDOM (setListArray s1 column ((listArray s1 column).set index .hole))
  else
    updateDOM (setListArray s1 column
      ((listArray s1 column).set index (.jstr t)))

/-- Model of `addToColumn(column)` with `raw` the text typed in the add box: trim,
validate, and on success push the trimmed item onto the column's array;
either way clear the box and call `updateDOM`. -/
def addToColumn (s : AppState) (column : Col) (raw : String) : AppState :=
  let item := jsTrim raw
  let v := validateItemText item
  let s1 := { s with alerts := s.alerts ++ v.2 }
  if v.1 then
    updateDOM (setListArray s1 column (listArray s1 column ++ [.jstr item]))
  else updateDOM s1

/-- The loops of `rebuildArrays`: wipe all four arrays and refill each by
pushing the `textContent` of every child of its column, in order. -/
def rebuildStep (s : AppState) : AppState :=
  { s with
    backlogListArray := s.backlogList.map .jstr
    progressListArray := s.progressList.map .jstr
    completeListArray := s.completeList.map .jstr
    onHoldListArray := s.onHoldList.map .jstr }

/-- Model of `rebuildArrays`: rebuild the four arrays from the current visual
children order of every column, then `updateDOM`. -/
def rebuildArrays (s : AppState) : AppState :=
  updateDOM (rebuildStep s)

/-- Model of `drag(e)`: capture the grabbed element (modelled by its position). -/
def dragStart (s : AppState) (c : Col) (i : Nat) : AppState :=
  { s with draggedItem := some (c, i) }

/-- Model of `drop(e)` with `tgt` the column recorded by `dragEnter`
(`currentColumn`): `appendChild` moves the dragged element from its
current position to the end of the target column's children, then
`rebuildArrays` runs.  With no live dragged element the append has nothing
to move and the state is unchanged. -/
def drop (s : AppState) (tgt : Col) : AppState :=
  match s.draggedItem with
  | none => s
  | some (src, i) =>
    if h : i < (listColumn s src).length then
      let t := (listColumn s src).get ⟨i, h⟩
      let s1 := setListColumn s src ((listColumn s src).eraseIdx i)
      let s2 := setListColumn s1 tgt (listColumn s1 tgt ++ [t])
      rebuildArrays s2
    else s

/-- The state of a freshly loaded page before the initial `updateDOM`
call: empty arrays and columns, the given storage, `updatedOnLoad`
false, no dragged element, no alerts shown yet. -/
def initState (st : Storage) : AppState :=
  { backlogListArray := []
    progressListArray := []
    completeListArray := []
    onHoldListArray := []
    backlogList := []
    progressList := []
    completeList := []
    onHoldList := []
    storage := st
    updatedOnLoad := false
    draggedItem := none
    alerts := [] }

/-- Page load: the script ends with a top-level `updateDOM()` call. -/
def startup (st : Storage) : AppState :=
  updateDOM (initState st)

/-- Storage of a first-ever visit: all keys absent, access working. -/
def freshStorage : Storage :=
  { backlogItems := .absent
    progressItems := .absent
    completeItems := .absent
    onHoldItems := .absent
    accessThrows := false }

/-- The board read by a fresh page load from storage `st` (the effect of
`getSavedColumns` on the four arrays). -/
def loadBoard (st : Storage) (c : Col) : List JItem :=
  listArray (getSavedColumns (initState st)) c

/-- The cell a column's key holds in a given storage. -/
def cellFor (st : Storage) : Col → Cell
  | .backlog => st.backlogItems
  | .progress => st.progressItems
  | .complete => st.completeItems
  | .onHold => st.onHoldItems

/-- States reachable by sequences of the script's public operations from
a first visit.  `P` restricts which inline-edit commits are considered
(instantiated with the trivial predicate for the full system).  Edits and
drags target existing elements; a page reload keeps the storage and
restarts the script. -/
inductive Reach (P : AppState → Col → Nat → String → Prop) : AppState → Prop
  | init : Reach P (startup freshStorage)
  | add (s : AppState) (c : Col) (raw : String) :
      Reach P s → Reach P (addToColumn s c raw)
  | edit (s : AppState) (i : Nat) (c : Col) (t : String) :
      Reach P s → i < (listColumn s c).length → P s c i t →
      Reach P (updateItem s i c t)
  | drag (s : AppState) (c : Col) (i : Nat) :
      Reach P s → i < (listColumn s c).length →
      Reach P (dragStart s c i)
  | dropOn (s : AppState) (tgt : Col) :
      Reach P s → Reach P (drop s tgt)
  | reload (s : AppState) :
      Reach P s → Reach P (startup s.storage)

/-- The full system: every inline-edit commit is allowed. -/
def ReachFull : AppState → Prop :=
  Reach fun _ _ _ _ => True

/-- The guard excluding exactly the edits refuted by the counterexample:
an edit may empty an item's text only if that item is not the element
currently captured as the drag source. -/
def NEGuard (s : AppState) (c : Col) (i : Nat) (t : String) : Prop :=
  s.draggedItem = some (c, i) → t ≠ ""

/-- The system restricted to runs in which no edit that empties an item's
text targets the element currently captured as the drag source. -/
def ReachNE : AppState → Prop :=
  Reach NEGuard

/-- The string items of an array, in order, skipping holes and nulls. -/
def strs (a : List JItem) : List String :=
  a.filterMap fun it =>
    match it with
    | .jstr s => some s
    | _ => none

/-- An array with no `null` slots (holes are allowed). -/
def NoNull (a : List JItem) : Prop := JItem.jnull ∉ a

/-- A dense all-string array, the shape `filterArray` produces. -/
def Clean (a : List JItem) : Prop := ∃ l : List String, a = l.map JItem.jstr

/-- Per column: the in-memory array is a list of strings, the visual
children show exactly those strings in order, and the persisted slot holds
exactly their JSON encoding. -/
def Consistent (s : AppState) : Prop :=
  ∀ c, ∃ l : List String,
    listArray s c = l.map JItem.jstr ∧ listColumn s c = l ∧
    storageCell s c = Cell.jsonOf (l.map JItem.jstr)

/-- The structural invariant of reachable states: the initial load has
run, storage works, every array is a dense all-string array, and every
persisted slot is the encoding of its array. -/
def Inv (s : AppState) : Prop :=
  s.updatedOnLoad = true ∧ s.storage.accessThrows = false ∧
  ∀ c, Clean (listArray s c) ∧ storageCell s c = storeEncode (listArray s c)

/-- No empty-string item anywhere: not in the arrays and not among the
visual children texts. -/
def NoEmpty (s : AppState) : Prop :=
  (∀ c, JItem.jstr "" ∉ listArray s c) ∧ (∀ c, "" ∉ listColumn s c)

/-- The drag-reference invariant: a captured drag source always points at
an existing child of its column, and whenever no drag reference is live
the whole state is consistent (visual text can diverge from the arrays
only at the dragged element, via a skipped edit). -/
def DragInv (s : AppState) : Prop :=
  (∀ c i, s.draggedItem = some (c, i) → i < (listColumn s c).length) ∧
  (s.draggedItem = none → Consistent s)

theorem strs_nil : strs [] = [] := rfl

theorem strs_cons_hole (a : List JItem) :
    strs (JItem.hole :: a) = strs a := rfl

theorem strs_cons_jnull (a : List JItem) :
    strs (JItem.jnull :: a) = strs a := rfl

theorem strs_cons_jstr (s : String) (a : List JItem) :
    strs (JItem.jstr s :: a) = s :: strs a := rfl

theorem strs_map_jstr (l : List String) : strs (l.map JItem.jstr) = l := by
  induction l with
  | nil => rfl
  | cons x xs ih => rw [List.map_cons, strs_cons_jstr, ih]

theorem filterArray_eq (a : List JItem) :
    filterArray a = (strs a).map JItem.jstr := by
  induction a with
  | nil => rfl
  | cons x xs ih =>
    cases x <;> simp [filterArray, strs, List.filter, List.filterMap] at ih ⊢
      <;> exact ih

theorem clean_filterArray (a : List JItem) : Clean (filterArray a) :=
  ⟨strs a, filterArray_eq a⟩

theorem filterArray_of_clean {a : List JItem} (h : Clean a) :
    filterArray a = a := by
  obtain ⟨l, rfl⟩ := h
  rw [filterArray_eq, strs_map_jstr]

theorem clean_noNull {a : List JItem} (h : Clean a) : NoNull a := by
  obtain ⟨l, rfl⟩ := h
  intro hmem
  simp [List.mem_map] at hmem

theorem renderColumn_eq_strs {a : List JItem} (h : NoNull a) :
    renderColumn a = strs a := by
  induction a with
  | nil => rfl
  | cons x xs ih =>
    have hx : x ≠ JItem.jnull := fun he => h (he ▸ List.mem_cons_self x xs)
    have hxs : NoNull xs := fun hm => h (List.mem_cons_of_mem x hm)
    cases x with
    | hole => simpa [renderColumn, strs] using ih hxs
    | jnull => exact absurd rfl hx
    | jstr s => simpa [renderColumn, strs] using ih hxs

theorem renderColumn_map_jstr (l : List String) :
    renderColumn (l.map JItem.jstr) = l := by
  rw [renderColumn_eq_strs (clean_noNull ⟨l, rfl⟩), strs_map_jstr]

theorem strs_set_hole (l : List String) (i : Nat) :
    strs ((l.map JItem.jstr).set i JItem.hole) = l.eraseIdx i := by
  induction l generalizing i with
  | nil => rfl
  | cons x xs ih =>
    cases i with
    | zero =>
      rw [List.map_cons, List.set_cons_zero, strs_cons_hole, strs_map_jstr]
      rfl
    | succ n =>
      rw [List.map_cons, List.set_cons_succ, strs_cons_jstr, ih,
        List.eraseIdx_cons_succ]

theorem strs_set_jstr (l : List String) (i : Nat) (t : String) :
    strs ((l.map JItem.jstr).set i (JItem.jstr t)) = l.set i t := by
  induction l generalizing i with
  | nil => rfl
  | cons x xs ih =>
    cases i with
    | zero =>
      rw [List.map_cons, List.set_cons_zero, strs_cons_jstr, strs_map_jstr]
      rfl
    | succ n =>
      rw [List.map_cons, List.set_cons_succ, strs_cons_jstr, ih]
      rfl

theorem noNull_set_hole {a : List JItem} (h : NoNull a) (i : Nat) :
    NoNull (a.set i JItem.hole) := by
  intro hm
  rcases List.mem_or_eq_of_mem_set hm with hm' | he
  · exact h hm'
  · exact JItem.noConfusion he

theorem noNull_set_jstr {a : List JItem} (h : NoNull a) (i : Nat)
    (t : String) : NoNull (a.set i (JItem.jstr t)) := by
  intro hm
  rcases List.mem_or_eq_of_mem_set hm with hm' | he
  · exact h hm'
  · exact JItem.noConfusion he

theorem storeEncode_of_clean {a : List JItem} (h : Clean a) :
    storeEncode a = Cell.jsonOf a := by
  obtain ⟨l, rfl⟩ := h
  simp [storeEncode, encodeItem, List.map_map, Function.comp]

theorem loadColumn_storeEncode_of_clean {a : List JItem} (h : Clean a) :
    loadColumn (storeEncode a) = a := by
  rw [storeEncode_of_clean h]
  rfl

theorem cellTruthy_storeEncode (a : List JItem) :
    cellTruthy (storeEncode a) = true := rfl

theorem listArray_setListArray_self (s : AppState) (c : Col)
    (l : List JItem) : listArray (setListArray s c l) c = l := by
  cases c <;> rfl

theorem listArray_setListArray_ne (s : AppState) {c c' : Col}
    (l : List JItem) (h : c' ≠ c) :
    listArray (setListArray s c l) c' = listArray s c' := by
  cases c <;> cases c' <;> first | rfl | exact absurd rfl h

theorem listColumn_setListArray (s : AppState) (c : Col) (l : List JItem)
    (c' : Col) : listColumn (setListArray s c l) c' = listColumn s c' := by
  cases c <;> cases c' <;> rfl

theorem storage_setListArray (s : AppState) (c : Col) (l : List JItem) :
    (setListArray s c l).storage = s.storage := by
  cases c <;> rfl

theorem updatedOnLoad_setListArray (s : AppState) (c : Col)
    (l : List JItem) : (setListArray s c l).updatedOnLoad = s.updatedOnLoad := by
  cases c <;> rfl

theorem draggedItem_setListArray (s : AppState) (c : Col) (l : List JItem) :
    (setListArray s c l).draggedItem = s.draggedItem := by
  cases c <;> rfl

theorem alerts_setListArray (s : AppState) (c : Col) (l : List JItem) :
    (setListArray s c l).alerts = s.alerts := by
  cases c <;> rfl

theorem listColumn_setListColumn_self (s : AppState) (c : Col)
    (l : List String) : listColumn (setListColumn s c l) c = l := by
  cases c <;> rfl

theorem listColumn_setListColumn_ne (s : AppState) {c c' : Col}
    (l : List String) (h : c' ≠ c) :
    listColumn (setListColumn s c l) c' = listColumn s c' := by
  cases c <;> cases c' <;> first | rfl | exact absurd rfl h

theorem listArray_setListColumn (s : AppState) (c : Col) (l : List String)
    (c' : Col) : listArray (setListColumn s c l) c' = listArray s c' := by
  cases c <;> cases c' <;> rfl

theorem storage_setListColumn (s : AppState) (c : Col) (l : List String) :
    (setListColumn s c l).storage = s.storage := by
  cases c <;> rfl

theorem updatedOnLoad_setListColumn (s : AppState) (c : Col)
    (l : List String) :
    (setListColumn s c l).updatedOnLoad = s.updatedOnLoad := by
  cases c <;> rfl

theorem draggedItem_setListColumn (s : AppState) (c : Col)
    (l : List String) : (setListColumn s c l).draggedItem = s.draggedItem := by
  cases c <;> rfl

theorem alerts_setListColumn (s : AppState) (c : Col) (l : List String) :
    (setListColumn s c l).alerts = s.alerts := by
  cases c <;> rfl

theorem getSavedColumns_storage (s : AppState) :
    (getSavedColumns s).storage = s.storage := by
  unfold getSavedColumns setSeeds
  split
  · rfl
  · split <;> rfl

theorem getSavedColumns_listColumn (s : AppState) (c : Col) :
    listColumn (getSavedColumns s) c = listColumn s c := by
  unfold getSavedColumns setSeeds
  split
  · cases c <;> rfl
  · split <;> cases c <;> rfl

theorem getSavedColumns_updatedOnLoad (s : AppState) :
    (getSavedColumns s).updatedOnLoad = s.updatedOnLoad := by
  unfold getSavedColumns setSeeds
  split
  · rfl
  · split <;> rfl

theorem getSavedColumns_draggedItem (s : AppState) :
    (getSavedColumns s).draggedItem = s.draggedItem := by
  unfold getSavedColumns setSeeds
  split
  · rfl
  · split <;> rfl

theorem getSavedColumns_alerts (s : AppState) :
    (getSavedColumns s).alerts = s.alerts := by
  unfold getSavedColumns setSeeds
  split
  · rfl
  · split <;> rfl

theorem checkLoad_of_updated {s : AppState} (h : s.updatedOnLoad = true) :
    checkLoad s = s := by
  simp [checkLoad, h]

theorem checkLoad_storage (s : AppState) :
    (checkLoad s).storage = s.storage := by
  unfold checkLoad
  split
  · rfl
  · exact getSavedColumns_storage s

theorem checkLoad_alerts (s : AppState) :
    (checkLoad s).alerts = s.alerts := by
  unfold checkLoad
  split
  · rfl
  · exact getSavedColumns_alerts s

theorem updateSavedColumns_listArray (s : AppState) (c : Col) :
    listArray (updateSavedColumns s) c = listArray s c := by
  unfold updateSavedColumns
  split <;> cases c <;> rfl

theorem updateSavedColumns_listColumn (s : AppState) (c : Col) :
    listColumn (updateSavedColumns s) c = listColumn s c := by
  unfold updateSavedColumns
  split <;> cases c <;> rfl

theorem updateSavedColumns_updatedOnLoad (s : AppState) :
    (updateSavedColumns s).updatedOnLoad = s.updatedOnLoad := by
  unfold updateSavedColumns
  split <;> rfl

theorem updateSavedColumns_draggedItem (s : AppState) :
    (updateSavedColumns s).draggedItem = s.draggedItem := by
  unfold updateSavedColumns
  split <;> rfl

theorem updateSavedColumns_alerts (s : AppState) :
    (updateSavedColumns s).alerts = s.alerts := by
  unfold updateSavedColumns
  split <;> rfl

theorem updateSavedColumns_accessThrows (s : AppState) :
    (updateSavedColumns s).storage.accessThrows = s.storage.accessThrows := by
  unfold updateSavedColumns
  split <;> rfl

theorem updateSavedColumns_storageCell {s : AppState}
    (ht : s.storage.accessThrows = false) (c : Col) :
    storageCell (updateSavedColumns s) c = storeEncode (listArray s c) := by
  unfold updateSavedColumns
  rw [if_neg (by simp [ht])]
  cases c <;> rfl

theorem redraw_listArray (s0 : AppState) (c : Col) :
    listArray (redraw s0) c = filterArray (listArray s0 c) := by
  cases c <;> rfl

theorem redraw_listColumn (s0 : AppState) (c : Col) :
    listColumn (redraw s0) c = renderColumn (listArray s0 c) := by
  cases c <;> rfl

theorem redraw_storage (s0 : AppState) : (redraw s0).storage = s0.storage :=
  rfl

theorem redraw_updatedOnLoad (s0 : AppState) :
    (redraw s0).updatedOnLoad = true := rfl

theorem redraw_draggedItem (s0 : AppState) :
    (redraw s0).draggedItem = none := rfl

theorem redraw_alerts (s0 : AppState) : (redraw s0).alerts = s0.alerts :=
  rfl

theorem updateDOM_listArray (s : AppState) (c : Col) :
    listArray (updateDOM s) c = filterArray (listArray (checkLoad s) c) := by
  unfold updateDOM
  rw [updateSavedColumns_listArray, redraw_listArray]

theorem updateDOM_listColumn (s : AppState) (c : Col) :
    listColumn (updateDOM s) c = renderColumn (listArray (checkLoad s) c) := by
  unfold updateDOM
  rw [updateSavedColumns_listColumn, redraw_listColumn]

theorem updateDOM_storageCell {s : AppState}
    (ht : s.storage.accessThrows = false) (c : Col) :
    storageCell (updateDOM s) c
      = storeEncode (filterArray (listArray (checkLoad s) c)) := by
  unfold updateDOM
  have ht' : (redraw (checkLoad s)).storage.accessThrows = false := by
    rw [redraw_storage, checkLoad_storage]
    exact ht
  rw [updateSavedColumns_storageCell ht', redraw_listArray]

theorem updateDOM_updatedOnLoad (s : AppState) :
    (updateDOM s).updatedOnLoad = true := by
  unfold updateDOM
  rw [updateSavedColumns_updatedOnLoad, redraw_updatedOnLoad]

theorem updateDOM_draggedItem (s : AppState) :
    (updateDOM s).draggedItem = none := by
  unfold updateDOM
  rw [updateSavedColumns_draggedItem, redraw_draggedItem]

theorem updateDOM_accessThrows (s : AppState) :
    (updateDOM s).storage.accessThrows = s.storage.accessThrows := by
  unfold updateDOM
  rw [updateSavedColumns_accessThrows, redraw_storage, checkLoad_storage]

theorem updateDOM_alerts (s : AppState) :
    (updateDOM s).alerts = s.alerts := by
  unfold updateDOM
  rw [updateSavedColumns_alerts, redraw_alerts, checkLoad_alerts]

theorem storageCell_setListArray (s : AppState) (c : Col) (l : List JItem)
    (c' : Col) : storageCell (setListArray s c l) c' = storageCell s c' := by
  cases c <;> cases c' <;> rfl

theorem storageCell_setListColumn (s : AppState) (c : Col) (l : List String)
    (c' : Col) : storageCell (setListColumn s c l) c' = storageCell s c' := by
  cases c <;> cases c' <;> rfl

theorem updateDOM_listArray_of_updated {s : AppState}
    (h : s.updatedOnLoad = true) (c : Col) :
    listArray (updateDOM s) c = filterArray (listArray s c) := by
  rw [updateDOM_listArray, checkLoad_of_updated h]

theorem updateDOM_listColumn_of_updated {s : AppState}
    (h : s.updatedOnLoad = true) (c : Col) :
    listColumn (updateDOM s) c = renderColumn (listArray s c) := by
  rw [updateDOM_listColumn, checkLoad_of_updated h]

theorem updateDOM_storageCell_of_updated {s : AppState}
    (h : s.updatedOnLoad = true) (ht : s.storage.accessThrows = false)
    (c : Col) :
    storageCell (updateDOM s) c
      = storeEncode (filterArray (listArray s c)) := by
  rw [updateDOM_storageCell ht, checkLoad_of_updated h]

/-- Every `updateDOM` call on working storage re-establishes the
structural invariant, whatever the state it starts from. -/
theorem inv_updateDOM {s : AppState}
    (ht : s.storage.accessThrows = false) : Inv (updateDOM s) := by
  refine ⟨updateDOM_updatedOnLoad s, ?_, fun c => ⟨?_, ?_⟩⟩
  · rw [updateDOM_accessThrows]
    exact ht
  · rw [updateDOM_listArray]
    exact clean_filterArray _
  · rw [updateDOM_storageCell ht, updateDOM_listArray]

theorem getSavedColumns_eq_seeds_of_throws {s : AppState}
    (ht : s.storage.accessThrows = true) :
    getSavedColumns s = setSeeds s := by
  unfold getSavedColumns
  rw [if_pos ht]

theorem getSavedColumns_eq_seeds_of_falsy {s : AppState}
    (ht : s.storage.accessThrows = false)
    (hb : cellTruthy s.storage.backlogItems = false) :
    getSavedColumns s = setSeeds s := by
  unfold getSavedColumns
  rw [if_neg (by simp [ht]), if_neg (by simp [hb])]

theorem getSavedColumns_listArray_truthy {s : AppState}
    (ht : s.storage.accessThrows = false)
    (hb : cellTruthy s.storage.backlogItems = true) (c : Col) :
    listArray (getSavedColumns s) c = loadColumn (storageCell s c) := by
  unfold getSavedColumns
  rw [if_neg (by simp [ht]), if_pos hb]
  cases c <;> rfl

theorem listArray_setSeeds (s : AppState) (c : Col) :
    listArray (setSeeds s) c = seedArray c := by
  cases c <;> rfl

theorem clean_seedArray (c : Col) : Clean (seedArray c) := by
  cases c with
  | backlog => exact ⟨["Release the course", "Sit back and relax"], rfl⟩
  | progress => exact ⟨["Work on projects", "Listen to music"], rfl⟩
  | complete => exact ⟨["Being cool", "Getting stuff done"], rfl⟩
  | onHold => exact ⟨["Being uncool"], rfl⟩

theorem inv_rebuildArrays {s : AppState}
    (ht : s.storage.accessThrows = false) : Inv (rebuildArrays s) :=
  inv_updateDOM ht

/-- Every state reachable by public operations satisfies the structural
invariant: initial load done, storage working, dense all-string arrays,
and every persisted slot the encoding of its array. -/
theorem inv_of_reach {P : AppState → Col → Nat → String → Prop}
    {s : AppState} (h : Reach P s) : Inv s := by
  induction h with
  | init => exact inv_updateDOM rfl
  | add s c raw hr ih =>
    unfold addToColumn
    dsimp only
    split
    · exact inv_updateDOM
        (by rw [storage_setListArray]; exact ih.2.1)
    · exact inv_updateDOM ih.2.1
  | edit s i c t hr hi hP ih =>
    unfold updateItem
    dsimp only
    split
    · refine ⟨?_, ?_, fun c' => ⟨?_, ?_⟩⟩
      · rw [updatedOnLoad_setListColumn]
        exact ih.1
      · rw [storage_setListColumn]
        exact ih.2.1
      · rw [listArray_setListColumn]
        exact (ih.2.2 c').1
      · rw [storageCell_setListColumn, listArray_setListColumn]
        exact (ih.2.2 c').2
    · split
      · exact inv_updateDOM
          (by rw [storage_setListArray, storage_setListColumn]; exact ih.2.1)
      · exact inv_updateDOM
          (by rw [storage_setListArray, storage_setListColumn]; exact ih.2.1)
  | drag s c i hr hi ih =>
    exact ⟨ih.1, ih.2.1, ih.2.2⟩
  | dropOn s tgt hr ih =>
    unfold drop
    cases hd : s.draggedItem with
    | none => exact ih
    | some p =>
      obtain ⟨src, i⟩ := p
      dsimp only
      by_cases h : i < (listColumn s src).length
      · rw [dif_pos h]
        exact inv_rebuildArrays
          (by rw [storage_setListColumn, storage_setListColumn]; exact ih.2.1)
      · rw [dif_neg h]
        exact ih
  | reload s hr ih =>
    exact inv_updateDOM ih.2.1

theorem jsTrim_idem (s : String) : jsTrim (jsTrim s) = jsTrim s := by
  have key : ∀ l : List Char,
      List.dropWhile isWSChar
          (List.rdropWhile isWSChar (List.dropWhile isWSChar l))
        = List.rdropWhile isWSChar (List.dropWhile isWSChar l) := by
    intro l
    rw [List.dropWhile_eq_self_iff]
    intro hl
    have hpre : List.rdropWhile isWSChar (List.dropWhile isWSChar l)
        <+: List.dropWhile isWSChar l := List.rdropWhile_prefix _ _
    have h0 : 0 < (List.dropWhile isWSChar l).length :=
      lt_of_lt_of_le hl hpre.length_le
    have hget := hpre.getElem hl
    have hnot := List.dropWhile_get_zero_not isWSChar l h0
    intro hcon
    apply hnot
    simp only [List.get_eq_getElem] at hcon ⊢
    rw [hget] at hcon
    exact hcon
  show (⟨List.rdropWhile isWSChar (List.dropWhile isWSChar
      (List.rdropWhile isWSChar (List.dropWhile isWSChar s.data)))⟩ : String)
    = ⟨List.rdropWhile isWSChar (List.dropWhile isWSChar s.data)⟩
  rw [key, List.rdropWhile_idempotent]

theorem mem_strs {x : String} {a : List JItem} :
    x ∈ strs a ↔ JItem.jstr x ∈ a := by
  unfold strs
  rw [List.mem_filterMap]
  constructor
  · rintro ⟨it, hmem, hit⟩
    cases it <;> simp_all
  · intro hmem
    exact ⟨JItem.jstr x, hmem, rfl⟩

theorem filterArray_append (a b : List JItem) :
    filterArray (a ++ b) = filterArray a ++ filterArray b :=
  List.filter_append a b

theorem validateItemText_valid {text : String}
    (h1 : 1 ≤ (jsTrim text).length) (h2 : text.length ≤ MAX_CHARS) :
    validateItemText text = (true, []) := by
  unfold validateItemText
  rw [if_neg (by omega), if_neg (by omega)]

theorem validateItemText_empty {text : String}
    (h0 : (jsTrim text).length = 0) (h2 : text.length ≤ MAX_CHARS) :
    validateItemText text = (false, []) := by
  unfold validateItemText
  rw [if_neg (by omega), if_pos h0]

theorem validateItemText_long {text : String}
    (h : text.length > MAX_CHARS) :
    validateItemText text
      = (false, ["Task text cannot exceed 100 characters"]) := by
  unfold validateItemText
  rw [if_pos h]

theorem validateItemText_fst_true {text : String}
    (h : (validateItemText text).1 = true) :
    text.length ≤ MAX_CHARS ∧ (jsTrim text).length ≠ 0 := by
  unfold validateItemText at h
  by_cases hl : text.length > MAX_CHARS
  · rw [if_pos hl] at h
    exact absurd h (by simp)
  · rw [if_neg hl] at h
    by_cases he : (jsTrim text).length = 0
    · rw [if_pos he] at h
      exact absurd h (by simp)
    · exact ⟨by omega, he⟩

theorem listArray_rebuildStep (s : AppState) (c : Col) :
    listArray (rebuildStep s) c = (listColumn s c).map JItem.jstr := by
  cases c <;> rfl

theorem storage_rebuildStep (s : AppState) :
    (rebuildStep s).storage = s.storage := rfl

theorem updatedOnLoad_rebuildStep (s : AppState) :
    (rebuildStep s).updatedOnLoad = s.updatedOnLoad := rfl

/-- An `updateDOM` call on working storage whose (post-load) arrays have
no `null` slots leaves persisted, in-memory and visual state consistent. -/
theorem consistent_updateDOM {s : AppState}
    (ht : s.storage.accessThrows = false)
    (hnn : ∀ c, NoNull (listArray (checkLoad s) c)) :
    Consistent (updateDOM s) := by
  intro c
  refine ⟨strs (listArray (checkLoad s) c), ?_, ?_, ?_⟩
  · rw [updateDOM_listArray, filterArray_eq]
  · rw [updateDOM_listColumn, renderColumn_eq_strs (hnn c)]
  · rw [updateDOM_storageCell ht, filterArray_eq,
      storeEncode_of_clean ⟨_, rfl⟩]

theorem checkLoad_of_not_updated {s : AppState}
    (h : s.updatedOnLoad = false) : checkLoad s = getSavedColumns s := by
  simp [checkLoad, h]

theorem storageCell_initState (st : Storage) (c : Col) :
    storageCell (initState st) c = cellFor st c := by
  cases c <;> rfl

/-- A fresh page load from a storage whose cells were all written by the
script from a consistent state reads back exactly the arrays that were
saved. -/
theorem getSavedColumns_initState_of_inv {s : AppState} (hInv : Inv s)
    (c : Col) :
    listArray (getSavedColumns (initState s.storage)) c = listArray s c := by
  obtain ⟨hu, ht, hcells⟩ := hInv
  have hb : cellTruthy (initState s.storage).storage.backlogItems = true := by
    have : (initState s.storage).storage.backlogItems
        = storeEncode (listArray s .backlog) := (hcells .backlog).2
    rw [this]
    exact cellTruthy_storeEncode _
  have ht' : (initState s.storage).storage.accessThrows = false := ht
  rw [getSavedColumns_listArray_truthy ht' hb, storageCell_initState]
  have hc : cellFor s.storage c = storeEncode (listArray s c) := by
    have := (hcells c).2
    cases c <;> exact this
  rw [hc, loadColumn_storeEncode_of_clean (hcells c).1]

theorem startup_listArray_of_inv {s : AppState} (hInv : Inv s) (c : Col) :
    listArray (startup s.storage) c = listArray s c := by
  unfold startup
  rw [updateDOM_listArray,
    checkLoad_of_not_updated (by rfl),
    getSavedColumns_initState_of_inv hInv,
    filterArray_of_clean (hInv.2.2 c).1]

theorem startup_listColumn_of_inv {s : AppState} (hInv : Inv s) (c : Col) :
    listColumn (startup s.storage) c = strs (listArray s c) := by
  unfold startup
  rw [updateDOM_listColumn,
    checkLoad_of_not_updated (by rfl),
    getSavedColumns_initState_of_inv hInv,
    renderColumn_eq_strs (clean_noNull (hInv.2.2 c).1)]

theorem listColumn_dragStart (s : AppState) (c : Col) (i : Nat) (c' : Col) :
    listColumn (dragStart s c i) c' = listColumn s c' := by
  cases c' <;> rfl

theorem listArray_dragStart (s : AppState) (c : Col) (i : Nat) (c' : Col) :
    listArray (dragStart s c i) c' = listArray s c' := by
  cases c' <;> rfl

theorem dragInv_updateDOM {s : AppState}
    (ht : s.storage.accessThrows = false)
    (hnn : ∀ c, NoNull (listArray (checkLoad s) c)) :
    DragInv (updateDOM s) := by
  constructor
  · intro c i h
    rw [updateDOM_draggedItem] at h
    exact Option.noConfusion h
  · intro _
    exact consistent_updateDOM ht hnn

theorem getSavedColumns_initState_fresh (c : Col) :
    listArray (getSavedColumns (initState freshStorage)) c = seedArray c := by
  rw [@getSavedColumns_eq_seeds_of_falsy (initState freshStorage) rfl rfl,
    listArray_setSeeds]

theorem dragInv_updateDOM_of_updated {s : AppState}
    (hu : s.updatedOnLoad = true) (ht : s.storage.accessThrows = false)
    (hnn : ∀ c, NoNull (listArray s c)) : DragInv (updateDOM s) :=
  dragInv_updateDOM ht (by rw [checkLoad_of_updated hu]; exact hnn)

/-- Every reachable state satisfies the drag-reference invariant. -/
theorem dragInv_of_reach {P : AppState → Col → Nat → String → Prop}
    {s : AppState} (h : Reach P s) : DragInv s := by
  induction h with
  | init =>
    refine dragInv_updateDOM rfl ?_
    intro c
    rw [checkLoad_of_not_updated rfl, getSavedColumns_initState_fresh]
    exact clean_noNull (clean_seedArray c)
  | add s c raw hr ih =>
    have hInv := inv_of_reach hr
    unfold addToColumn
    dsimp only
    split
    · refine dragInv_updateDOM_of_updated ?_ ?_ ?_
      · rw [updatedOnLoad_setListArray]
        exact hInv.1
      · rw [storage_setListArray]
        exact hInv.2.1
      · intro c'
        by_cases hc : c' = c
        · subst hc
          rw [listArray_setListArray_self]
          intro hmem
          rcases List.mem_append.1 hmem with hmem' | hmem'
          · exact clean_noNull (hInv.2.2 c').1 hmem'
          · simp at hmem'
        · rw [listArray_setListArray_ne _ _ hc]
          exact clean_noNull (hInv.2.2 c').1
    · refine dragInv_updateDOM_of_updated hInv.1 hInv.2.1 ?_
      intro c'
      exact clean_noNull (hInv.2.2 c').1
  | edit s i c t hr hi hP ih =>
    have hInv := inv_of_reach hr
    unfold updateItem
    dsimp only
    split
    · rename_i hcond
      rw [draggedItem_setListColumn] at hcond
      constructor
      · intro c' i' h'
        rw [draggedItem_setListColumn] at h'
        rw [hcond] at h'
        obtain ⟨h1, h2⟩ : c = c' ∧ i = i' := by
          injection h' with h''
          exact ⟨congrArg Prod.fst h'', congrArg Prod.snd h''⟩
        subst h1
        subst h2
        rw [listColumn_setListColumn_self, List.length_set]
        exact ih.1 c i hcond
      · intro hnone
        rw [draggedItem_setListColumn, hcond] at hnone
        exact Option.noConfusion hnone
    · split
      · refine dragInv_updateDOM_of_updated ?_ ?_ ?_
        · rw [updatedOnLoad_setListArray, updatedOnLoad_setListColumn]
          exact hInv.1
        · rw [storage_setListArray, storage_setListColumn]
          exact hInv.2.1
        · intro c'
          by_cases hc : c' = c
          · subst hc
            rw [listArray_setListArray_self, listArray_setListColumn]
            intro hmem
            rcases List.mem_or_eq_of_mem_set hmem with hmem' | he
            · exact clean_noNull (hInv.2.2 c').1 hmem'
            · exact JItem.noConfusion he.symm
          · rw [listArray_setListArray_ne _ _ hc, listArray_setListColumn]
            exact clean_noNull (hInv.2.2 c').1
      · refine dragInv_updateDOM_of_updated ?_ ?_ ?_
        · rw [updatedOnLoad_setListArray, updatedOnLoad_setListColumn]
          exact hInv.1
        · rw [storage_setListArray, storage_setListColumn]
          exact hInv.2.1
        · intro c'
          by_cases hc : c' = c
          · subst hc
            rw [listArray_setListArray_self, listArray_setListColumn]
            intro hmem
            rcases List.mem_or_eq_of_mem_set hmem with hmem' | he
            · exact clean_noNull (hInv.2.2 c').1 hmem'
            · exact JItem.noConfusion he.symm
          · rw [listArray_setListArray_ne _ _ hc, listArray_setListColumn]
            exact clean_noNull (hInv.2.2 c').1
  | drag s c i hr hi ih =>
    constructor
    · intro c' i' h'
      have : (c, i) = (c', i') := by
        injection h' with h''
      obtain ⟨rfl, rfl⟩ : c = c' ∧ i = i' :=
        ⟨congrArg Prod.fst this, congrArg Prod.snd this⟩
      rw [listColumn_dragStart]
      exact hi
    · intro hnone
      exact Option.noConfusion hnone
  | dropOn s tgt hr ih =>
    have hInv := inv_of_reach hr
    unfold drop
    cases hd : s.draggedItem with
    | none => exact ih
    | some p =>
      obtain ⟨src, i⟩ := p
      dsimp only
      rw [dif_pos (ih.1 src i hd)]
      refine dragInv_updateDOM_of_updated ?_ ?_ ?_
      · rw [updatedOnLoad_rebuildStep, updatedOnLoad_setListColumn,
          updatedOnLoad_setListColumn]
        exact hInv.1
      · rw [storage_rebuildStep, storage_setListColumn, storage_setListColumn]
        exact hInv.2.1
      · intro c'
        rw [listArray_rebuildStep]
        exact clean_noNull ⟨_, rfl⟩
  | reload s hr ih =>
    have hInv := inv_of_reach hr
    refine dragInv_updateDOM hInv.2.1 ?_
    intro c
    rw [checkLoad_of_not_updated rfl, getSavedColumns_initState_of_inv hInv]
    exact clean_noNull (hInv.2.2 c).1

theorem mem_of_mem_filterArray {x : JItem} {a : List JItem}
    (h : x ∈ filterArray a) : x ∈ a :=
  List.mem_of_mem_filter h

theorem listArray_withAlerts (s : AppState) (v : List String) (c : Col) :
    listArray { s with alerts := v } c = listArray s c := by
  cases c <;> rfl

theorem listColumn_withAlerts (s : AppState) (v : List String) (c : Col) :
    listColumn { s with alerts := v } c = listColumn s c := by
  cases c <;> rfl

theorem noEmpty_updateDOM {u : AppState} (hu : u.updatedOnLoad = true)
    (hnn : ∀ c, NoNull (listArray u c))
    (hne : ∀ c, JItem.jstr "" ∉ listArray u c) :
    NoEmpty (updateDOM u) := by
  constructor
  · intro c hmem
    rw [updateDOM_listArray_of_updated hu] at hmem
    exact hne c (mem_of_mem_filterArray hmem)
  · intro c hmem
    rw [updateDOM_listColumn_of_updated hu,
      renderColumn_eq_strs (hnn c)] at hmem
    exact hne c (mem_strs.1 hmem)

/-- In every run in which no edit empties the text of the active drag
source, no empty-string item ever appears in any array or any column's
visual children. -/
theorem noEmpty_of_reach_ne {s : AppState} (h : Reach NEGuard s) :
    NoEmpty s := by
  induction h with
  | init => exact ⟨by decide, by decide⟩
  | add s c raw hr ih =>
    have hInv := inv_of_reach hr
    unfold addToColumn
    dsimp only
    split
    · rename_i hv
      have hval := validateItemText_fst_true hv
      have hitem : jsTrim raw ≠ "" := by
        intro he
        apply hval.2
        rw [jsTrim_idem, he]
        rfl
      refine noEmpty_updateDOM ?_ ?_ ?_
      · rw [updatedOnLoad_setListArray]
        exact hInv.1
      · intro c'
        by_cases hc : c' = c
        · subst hc
          rw [listArray_setListArray_self]
          intro hmem
          rcases List.mem_append.1 hmem with hmem' | hmem'
          · exact clean_noNull (hInv.2.2 c').1 hmem'
          · simp at hmem'
        · rw [listArray_setListArray_ne _ _ hc]
          exact clean_noNull (hInv.2.2 c').1
      · intro c'
        by_cases hc : c' = c
        · subst hc
          rw [listArray_setListArray_self]
          intro hmem
          rcases List.mem_append.1 hmem with hmem' | hmem'
          · have := ih.1 c'
            rw [listArray_withAlerts] at hmem'
            exact this hmem'
          · rw [List.mem_singleton] at hmem'
            exact hitem (JItem.jstr.inj hmem').symm
        · rw [listArray_setListArray_ne _ _ hc, listArray_withAlerts]
          exact ih.1 c'
    · refine noEmpty_updateDOM hInv.1 ?_ ?_
      · intro c'
        rw [listArray_withAlerts]
        exact clean_noNull (hInv.2.2 c').1
      · intro c'
        rw [listArray_withAlerts]
        exact ih.1 c'
  | edit s i c t hr hi hP ih =>
    have hInv := inv_of_reach hr
    unfold updateItem
    dsimp only
    split
    · rename_i hcond
      rw [draggedItem_setListColumn] at hcond
      have ht : t ≠ "" := hP hcond
      constructor
      · intro c' hmem
        rw [listArray_setListColumn] at hmem
        exact ih.1 c' hmem
      · intro c' hmem
        by_cases hc : c' = c
        · subst hc
          rw [listColumn_setListColumn_self] at hmem
          rcases List.mem_or_eq_of_mem_set hmem with hmem' | he
          · exact ih.2 c' hmem'
          · exact ht he.symm
        · rw [listColumn_setListColumn_ne _ _ hc] at hmem
          exact ih.2 c' hmem
    · rename_i hne
      have harr : ∀ (x : JItem), x ≠ JItem.jstr "" → ∀ c',
          JItem.jstr "" ∉ listArray
            (setListArray (setListColumn s c ((listColumn s c).set i t)) c
              (List.set
                (listArray (setListColumn s c ((listColumn s c).set i t)) c)
                i x)) c' := by
        intro x hx c'
        by_cases hc : c' = c
        · subst hc
          rw [listArray_setListArray_self, listArray_setListColumn]
          intro hmem
          rcases List.mem_or_eq_of_mem_set hmem with hmem' | he
          · exact ih.1 c' hmem'
          · exact hx he.symm
        · rw [listArray_setListArray_ne _ _ hc, listArray_setListColumn]
          exact ih.1 c'
      have hnn : ∀ (x : JItem), x ≠ JItem.jnull → ∀ c',
          NoNull (listArray
            (setListArray (setListColumn s c ((listColumn s c).set i t)) c
              (List.set
                (listArray (setListColumn s c ((listColumn s c).set i t)) c)
                i x)) c') := by
        intro x hx c'
        by_cases hc : c' = c
        · subst hc
          rw [listArray_setListArray_self, listArray_setListColumn]
          intro hmem
          rcases List.mem_or_eq_of_mem_set hmem with hmem' | he
          · exact clean_noNull (hInv.2.2 c').1 hmem'
          · exact hx he.symm
        · rw [listArray_setListArray_ne _ _ hc, listArray_setListColumn]
          exact clean_noNull (hInv.2.2 c').1
      have hupd : ∀ l : List JItem,
          (setListArray (setListColumn s c ((listColumn s c).set i t)) c
            l).updatedOnLoad = true := by
        intro l
        rw [updatedOnLoad_setListArray, updatedOnLoad_setListColumn]
        exact hInv.1
      split
      · exact noEmpty_updateDOM (hupd _) (hnn JItem.hole (by simp))
          (harr JItem.hole (by simp))
      · rename_i hts
        exact noEmpty_updateDOM (hupd _) (hnn (JItem.jstr t) (by simp))
          (harr (JItem.jstr t) (by simpa using hts))
  | drag s c i hr hi ih =>
    constructor
    · intro c' hmem
      rw [listArray_dragStart] at hmem
      exact ih.1 c' hmem
    · intro c' hmem
      rw [listColumn_dragStart] at hmem
      exact ih.2 c' hmem
  | dropOn s tgt hr ih =>
    have hInv := inv_of_reach hr
    unfold drop
    cases hd : s.draggedItem with
    | none => exact ih
    | some p =>
      obtain ⟨src, i⟩ := p
      dsimp only
      by_cases hb : i < (listColumn s src).length
      · rw [dif_pos hb]
        have htmem : (listColumn s src).get ⟨i, hb⟩ ∈ listColumn s src :=
          List.get_mem _ _ _
        have hdom : ∀ c', "" ∉ listColumn
            (setListColumn (setListColumn s src ((listColumn s src).eraseIdx i))
              tgt (listColumn
                (setListColumn s src ((listColumn s src).eraseIdx i)) tgt
                ++ [(listColumn s src).get ⟨i, hb⟩])) c' := by
          intro c' hmem
          have hsub1 : ∀ c'' x, x ∈ listColumn
              (setListColumn s src ((listColumn s src).eraseIdx i)) c'' →
              x ∈ listColumn s c'' := by
            intro c'' x hx
            by_cases hcs : c'' = src
            · subst hcs
              rw [listColumn_setListColumn_self] at hx
              exact (List.eraseIdx_sublist _ i).subset hx
            · rw [listColumn_setListColumn_ne _ _ hcs] at hx
              exact hx
          by_cases hct : c' = tgt
          · subst hct
            rw [listColumn_setListColumn_self] at hmem
            rcases List.mem_append.1 hmem with hmem' | hmem'
            · exact ih.2 c' (hsub1 c' _ hmem')
            · rw [List.mem_singleton] at hmem'
              exact ih.2 src (hmem' ▸ htmem)
          · rw [listColumn_setListColumn_ne _ _ hct] at hmem
            exact ih.2 c' (hsub1 c' _ hmem)
        refine noEmpty_updateDOM ?_ ?_ ?_
        · rw [updatedOnLoad_rebuildStep, updatedOnLoad_setListColumn,
            updatedOnLoad_setListColumn]
          exact hInv.1
        · intro c'
          rw [listArray_rebuildStep]
          exact clean_noNull ⟨_, rfl⟩
        · intro c'
          rw [listArray_rebuildStep]
          intro hmem
          rcases List.mem_map.1 hmem with ⟨x, hx, hxe⟩
          have : x = "" := JItem.jstr.inj hxe
          subst this
          exact hdom c' hx
      · rw [dif_neg hb]
        exact ih
  | reload s hr ih =>
    have hInv := inv_of_reach hr
    constructor
    · intro c hmem
      rw [startup_listArray_of_inv hInv] at hmem
      exact ih.1 c hmem
    · intro c hmem
      rw [startup_listColumn_of_inv hInv] at hmem
      exact ih.1 c (mem_strs.1 hmem)

theorem eraseIdx_map (f : α → β) (l : List α) (i : Nat) :
    (l.map f).eraseIdx i = (l.eraseIdx i).map f := by
  induction l generalizing i with
  | nil => rfl
  | cons x xs ih =>
    cases i with
    | zero => rfl
    | succ n =>
      simp only [List.map_cons, List.eraseIdx_cons_succ, ih]

theorem filterArray_set_hole_of_clean {a : List JItem} (h : Clean a)
    (i : Nat) : filterArray (a.set i JItem.hole) = a.eraseIdx i := by
  obtain ⟨l, rfl⟩ := h
  rw [filterArray_eq, strs_set_hole, eraseIdx_map]

theorem filterArray_set_jstr_of_clean {a : List JItem} (h : Clean a)
    (i : Nat) (t : String) :
    filterArray (a.set i (JItem.jstr t)) = a.set i (JItem.jstr t) := by
  obtain ⟨l, rfl⟩ := h
  rw [filterArray_eq, strs_set_jstr]
  induction l generalizing i with
  | nil => rfl
  | cons x xs ih =>
    cases i with
    | zero => rfl
    | succ n =>
      simp only [List.map_cons, List.set_cons_succ, List.cons.injEq, true_and]
      exact ih n

/-- C5: for text whose trimmed length is between 1 and `MAX_CHARS`,
`addToColumn` appends exactly the trimmed text to the chosen column's
array — so its length grows by exactly one and its new last element is
the trimmed text — and leaves the other three columns' arrays unchanged. -/
theorem claim5_addItem {s : AppState} {c : Col} {raw : String}
    (hu : s.updatedOnLoad = true) (hcl : ∀ x, Clean (listArray s x))
    (h1 : 1 ≤ (jsTrim raw).length) (h2 : (jsTrim raw).length ≤ MAX_CHARS) :
    listArray (addToColumn s c raw) c
      = listArray s c ++ [JItem.jstr (jsTrim raw)]
    ∧ (listArray (addToColumn s c raw) c).length
        = (listArray s c).length + 1
    ∧ ∀ x, x ≠ c → listArray (addToColumn s c raw) x = listArray s x := by
  have hv : validateItemText (jsTrim raw) = (true, []) :=
    validateItemText_valid (by rw [jsTrim_idem]; exact h1) h2
  have key : listArray (addToColumn s c raw) c
      = listArray s c ++ [JItem.jstr (jsTrim raw)] := by
    unfold addToColumn
    dsimp only
    rw [hv]
    dsimp only
    rw [if_pos rfl]
    rw [updateDOM_listArray_of_updated
      (by rw [updatedOnLoad_setListArray]; exact hu)]
    rw [listArray_setListArray_self, listArray_withAlerts, filterArray_append,
      filterArray_of_clean (hcl c)]
    rfl
  refine ⟨key, ?_, ?_⟩
  · rw [key, List.length_append]
    rfl
  · intro x hx
    unfold addToColumn
    dsimp only
    rw [hv]
    dsimp only
    rw [if_pos rfl]
    rw [updateDOM_listArray_of_updated
      (by rw [updatedOnLoad_setListArray]; exact hu)]
    rw [listArray_setListArray_ne _ _ hx, listArray_withAlerts,
      filterArray_of_clean (hcl x)]

/-- Witness for C5 at a concrete input. -/
theorem claim5_addItem_witness :
    listArray (addToColumn (startup freshStorage) Col.progress " Ship v2 ")
        Col.progress
      = listArray (startup freshStorage) Col.progress
        ++ [JItem.jstr (jsTrim " Ship v2 ")] :=
  (@claim5_addItem (startup freshStorage) Col.progress " Ship v2 "
    rfl (fun x => by
      cases x
      · exact ⟨["Release the course", "Sit back and relax"], by decide⟩
      · exact ⟨["Work on projects", "Listen to music"], by decide⟩
      · exact ⟨["Being cool", "Getting stuff done"], by decide⟩
      · exact ⟨["Being uncool"], by decide⟩)
    (by decide) (by decide)).1

/-- C6: `addToColumn` with text that is empty after trimming is a silent
no-op — every column's array is unchanged and no alert is shown — and
with trimmed text longer than `MAX_CHARS` it is rejected with exactly one
alert and no change to any column's array. -/
theorem claim6_addItem_invalid {s : AppState} {c : Col} {raw : String}
    (hu : s.updatedOnLoad = true) (hcl : ∀ x, Clean (listArray s x)) :
    ((jsTrim raw).length = 0 →
      (∀ x, listArray (addToColumn s c raw) x = listArray s x)
      ∧ (addToColumn s c raw).alerts = s.alerts)
    ∧ ((jsTrim raw).length > MAX_CHARS →
      (∀ x, listArray (addToColumn s c raw) x = listArray s x)
      ∧ (addToColumn s c raw).alerts
          = s.alerts ++ ["Task text cannot exceed 100 characters"]) := by
  have main : ∀ msgs : List String,
      validateItemText (jsTrim raw) = (false, msgs) →
      (∀ x, listArray (addToColumn s c raw) x = listArray s x)
      ∧ (addToColumn s c raw).alerts = s.alerts ++ msgs := by
    intro msgs hv
    constructor
    · intro x
      unfold addToColumn
      dsimp only
      rw [hv]
      dsimp only
      rw [if_neg (by simp)]
      rw [updateDOM_listArray_of_updated (by exact hu), listArray_withAlerts,
        filterArray_of_clean (hcl x)]
    · unfold addToColumn
      dsimp only
      rw [hv]
      dsimp only
      rw [if_neg (by simp)]
      rw [updateDOM_alerts]
  constructor
  · intro h0
    have h := main [] (validateItemText_empty
      (by rw [jsTrim_idem]; exact h0) (by omega))
    exact ⟨h.1, by rw [h.2, List.append_nil]⟩
  · intro hbig
    exact main _ (validateItemText_long hbig)

/-- Witness for C6 at concrete inputs: a whitespace-only text and an
over-long text. -/
theorem claim6_addItem_invalid_witness :
    (listArray (addToColumn (startup freshStorage) Col.backlog "   ")
        Col.backlog
      = listArray (startup freshStorage) Col.backlog)
    ∧ (addToColumn (startup freshStorage) Col.backlog "   ").alerts
        = (startup freshStorage).alerts := by
  have h := @claim6_addItem_invalid (startup freshStorage) Col.backlog "   "
    rfl (fun x => by
      cases x
      · exact ⟨["Release the course", "Sit back and relax"], by decide⟩
      · exact ⟨["Work on projects", "Listen to music"], by decide⟩
      · exact ⟨["Being cool", "Getting stuff done"], by decide⟩
      · exact ⟨["Being uncool"], by decide⟩)
  exact ⟨(h.1 (by decide)).1 Col.backlog, (h.1 (by decide)).2⟩

/-- C7: committing an edit that empties the text of the item at a valid
index `i` of column `c` (while that element is not the drag source)
removes exactly that item — the column's array becomes its `eraseIdx i`,
one element shorter with the order of the rest preserved — and the other
three columns' arrays are unchanged. -/
theorem claim7_editEmpty {s : AppState} {c : Col} {i : Nat}
    (hu : s.updatedOnLoad = true) (hcl : ∀ x, Clean (listArray s x))
    (hnd : s.draggedItem ≠ some (c, i)) (hi : i < (listArray s c).length) :
    listArray (updateItem s i c "") c = (listArray s c).eraseIdx i
    ∧ (listArray (updateItem s i c "") c).length
        = (listArray s c).length - 1
    ∧ ∀ x, x ≠ c → listArray (updateItem s i c "") x = listArray s x := by
  have key : listArray (updateItem s i c "") c
      = (listArray s c).eraseIdx i := by
    unfold updateItem
    dsimp only
    rw [if_pos rfl, if_neg (by rw [draggedItem_setListColumn]; exact hnd)]
    rw [updateDOM_listArray_of_updated
      (by rw [updatedOnLoad_setListArray, updatedOnLoad_setListColumn]
          exact hu)]
    rw [listArray_setListArray_self, listArray_setListColumn,
      filterArray_set_hole_of_clean (hcl c)]
  refine ⟨key, ?_, ?_⟩
  · rw [key, List.length_eraseIdx_of_lt hi]
  · intro x hx
    unfold updateItem
    dsimp only
    rw [if_pos rfl, if_neg (by rw [draggedItem_setListColumn]; exact hnd)]
    rw [updateDOM_listArray_of_updated
      (by rw [updatedOnLoad_setListArray, updatedOnLoad_setListColumn]
          exact hu)]
    rw [listArray_setListArray_ne _ _ hx, listArray_setListColumn,
      filterArray_of_clean (hcl x)]

/-- Witness for C7 at a concrete input. -/
theorem claim7_editEmpty_witness :
    listArray (updateItem (startup freshStorage) 0 Col.backlog "")
        Col.backlog
      = (listArray (startup freshStorage) Col.backlog).eraseIdx 0 :=
  (@claim7_editEmpty (startup freshStorage) Col.backlog 0
    rfl (fun x => by
      cases x
      · exact ⟨["Release the course", "Sit back and relax"], by decide⟩
      · exact ⟨["Work on projects", "Listen to music"], by decide⟩
      · exact ⟨["Being cool", "Getting stuff done"], by decide⟩
      · exact ⟨["Being uncool"], by decide⟩)
    (by decide) (by decide)).1

/-- C8: while the element at `(c, i)` is the captured drag source, an
edit commit targeting it is skipped entirely: all four in-memory arrays
and the whole persisted storage are unchanged, whatever the new text. -/
theorem claim8_editSkipped {s : AppState} {c : Col} {i : Nat} (t : String)
    (hd : s.draggedItem = some (c, i)) :
    (∀ x, listArray (updateItem s i c t) x = listArray s x)
    ∧ (updateItem s i c t).storage = s.storage := by
  unfold updateItem
  dsimp only
  rw [if_pos (by rw [draggedItem_setListColumn]; exact hd)]
  exact ⟨fun x => listArray_setListColumn _ _ _ x, storage_setListColumn _ _ _⟩

/-- Behaviour of `drop` on a live drag reference, written out: the dragged element is
removed from its position in the source column's children and appended to
the target column's children, then `rebuildArrays` runs. -/
theorem drop_eq {s : AppState} {src : Col} {i : Nat}
    (hd : s.draggedItem = some (src, i))
    (hi : i < (listColumn s src).length) (tgt : Col) :
    drop s tgt
      = rebuildArrays
        (setListColumn (setListColumn s src ((listColumn s src).eraseIdx i))
          tgt
          (listColumn (setListColumn s src ((listColumn s src).eraseIdx i))
              tgt
            ++ [(listColumn s src).get ⟨i, hi⟩])) := by
  unfold drop
  rw [hd]
  dsimp only
  rw [dif_pos hi]

/-- C1: with the board synced (each array mirroring its column's visual
children) and the element at index `i` of column `A` captured as the drag
source, dropping on a different column `B` removes that item from `A`'s
in-memory sequence, appends it to `B`'s sequence at its dropped visual
position (the end, where `appendChild` reparented it), rebuilds every
array from the visual order of its column, and leaves every persisted
slot the JSON encoding of its new sequence. -/
theorem claim1_moveItem {s : AppState} {A B : Col} {i : Nat}
    (hu : s.updatedOnLoad = true) (ht : s.storage.accessThrows = false)
    (hsync : ∀ x, listArray s x = (listColumn s x).map JItem.jstr)
    (hd : s.draggedItem = some (A, i)) (hi : i < (listColumn s A).length)
    (hAB : A ≠ B) :
    strs (listArray (drop s B) A) = (listColumn s A).eraseIdx i
    ∧ strs (listArray (drop s B) B)
        = listColumn s B ++ [(listColumn s A).get ⟨i, hi⟩]
    ∧ (∀ x, listColumn (drop s B) x = strs (listArray (drop s B) x))
    ∧ (∀ x, storageCell (drop s B) x = Cell.jsonOf (listArray (drop s B) x))
    ∧ (∀ x, x ≠ A → x ≠ B → listArray (drop s B) x = listArray s x) := by
  have hBA : B ≠ A := fun he => hAB he.symm
  have harr : ∀ x, listArray (drop s B) x
      = (listColumn (setListColumn
          (setListColumn s A ((listColumn s A).eraseIdx i)) B
          (listColumn (setListColumn s A ((listColumn s A).eraseIdx i)) B
            ++ [(listColumn s A).get ⟨i, hi⟩])) x).map JItem.jstr := by
    intro x
    rw [drop_eq hd hi B]
    unfold rebuildArrays
    rw [updateDOM_listArray_of_updated
      (by
        rw [updatedOnLoad_rebuildStep, updatedOnLoad_setListColumn,
          updatedOnLoad_setListColumn]
        exact hu)]
    rw [listArray_rebuildStep, filterArray_of_clean ⟨_, rfl⟩]
  have hcolA : listColumn (setListColumn
      (setListColumn s A ((listColumn s A).eraseIdx i)) B
      (listColumn (setListColumn s A ((listColumn s A).eraseIdx i)) B
        ++ [(listColumn s A).get ⟨i, hi⟩])) A
      = (listColumn s A).eraseIdx i := by
    rw [listColumn_setListColumn_ne _ _ hAB, listColumn_setListColumn_self]
  have hcolB : listColumn (setListColumn
      (setListColumn s A ((listColumn s A).eraseIdx i)) B
      (listColumn (setListColumn s A ((listColumn s A).eraseIdx i)) B
        ++ [(listColumn s A).get ⟨i, hi⟩])) B
      = listColumn s B ++ [(listColumn s A).get ⟨i, hi⟩] := by
    rw [listColumn_setListColumn_self, listColumn_setListColumn_ne _ _ hBA]
  have hcolO : ∀ x, x ≠ A → x ≠ B → listColumn (setListColumn
      (setListColumn s A ((listColumn s A).eraseIdx i)) B
      (listColumn (setListColumn s A ((listColumn s A).eraseIdx i)) B
        ++ [(listColumn s A).get ⟨i, hi⟩])) x
      = listColumn s x := by
    intro x hxA hxB
    rw [listColumn_setListColumn_ne _ _ hxB, listColumn_setListColumn_ne _ _ hxA]
  refine ⟨?_, ?_, ?_, ?_, ?_⟩
  · rw [harr A, hcolA, strs_map_jstr]
  · rw [harr B, hcolB, strs_map_jstr]
  · intro x
    rw [harr x, strs_map_jstr, drop_eq hd hi B]
    unfold rebuildArrays
    rw [updateDOM_listColumn_of_updated
      (by
        rw [updatedOnLoad_rebuildStep, updatedOnLoad_setListColumn,
          updatedOnLoad_setListColumn]
        exact hu)]
    rw [listArray_rebuildStep, renderColumn_map_jstr]
  · intro x
    rw [harr x, drop_eq hd hi B]
    unfold rebuildArrays
    rw [updateDOM_storageCell_of_updated
      (by
        rw [updatedOnLoad_rebuildStep, updatedOnLoad_setListColumn,
          updatedOnLoad_setListColumn]
        exact hu)
      (by
        rw [storage_rebuildStep, storage_setListColumn, storage_setListColumn]
        exact ht)]
    rw [listArray_rebuildStep, filterArray_of_clean ⟨_, rfl⟩,
      storeEncode_of_clean ⟨_, rfl⟩]
  · intro x hxA hxB
    rw [harr x, hcolO x hxA hxB, ← hsync x]

/-- Witness for C1 at a concrete input: drag the first backlog item and
drop it on the progress column. -/
theorem claim1_moveItem_witness :
    strs (listArray (drop (dragStart (startup freshStorage) Col.backlog 0)
        Col.progress) Col.backlog)
      = (listColumn (dragStart (startup freshStorage) Col.backlog 0)
          Col.backlog).eraseIdx 0
    ∧ strs (listArray (drop (dragStart (startup freshStorage) Col.backlog 0)
        Col.progress) Col.progress)
      = listColumn (dragStart (startup freshStorage) Col.backlog 0)
          Col.progress
        ++ [(listColumn (dragStart (startup freshStorage) Col.backlog 0)
            Col.backlog).get ⟨0, by decide⟩] := by
  have h := @claim1_moveItem (dragStart (startup freshStorage) Col.backlog 0)
    Col.backlog Col.progress 0 rfl rfl (by decide) rfl (by decide) (by decide)
  exact ⟨h.1, h.2.1⟩

/-- C4: saving is implicit in every reachable state (its storage already
holds each array's encoding), and a fresh page load from that storage
yields exactly the same four sequences. -/
theorem claim4_roundTrip {s : AppState} (h : ReachFull s) (c : Col) :
    listArray (startup s.storage) c = listArray s c :=
  startup_listArray_of_inv (inv_of_reach h) c

/-- Witness for C4 at a concrete reachable state. -/
theorem claim4_roundTrip_witness :
    listArray (startup (startup freshStorage).storage) Col.backlog
      = listArray (startup freshStorage) Col.backlog :=
  claim4_roundTrip Reach.init Col.backlog

/-- Counterexample to C2 as stated: with `backlogItems` present but
unparseable (and the other keys absent), `load` yields four empty
sequences, not the seed Board. -/
theorem claim2_cex :
    loadBoard ⟨Cell.corrupt, Cell.absent, Cell.absent, Cell.absent, false⟩
        Col.backlog = []
    ∧ loadBoard ⟨Cell.corrupt, Cell.absent, Cell.absent, Cell.absent, false⟩
        Col.progress = []
    ∧ seedArray Col.backlog ≠ [] ∧ seedArray Col.progress ≠ [] :=
  ⟨rfl, rfl, by decide, by decide⟩

/-- C2 amended: `load` returns the seed Board exactly when the data is
missing (the first key reads back falsy: absent or the empty string) or
storage access throws; when the first key is present and non-empty, a
column whose own value fails to parse loads as the empty sequence.  In
all cases no error reaches the caller (`loadBoard` is a total function:
parse failures are swallowed by `safeJSONParse` and the storage exception
by the surrounding catch). -/
theorem claim2_amended (st : Storage) :
    ((st.accessThrows = true ∨ cellTruthy st.backlogItems = false) →
      ∀ c, loadBoard st c = seedArray c)
    ∧ (st.accessThrows = false → cellTruthy st.backlogItems = true →
      ∀ c, safeJSONParse (cellFor st c) = none → loadBoard st c = []) := by
  constructor
  · intro hseed c
    unfold loadBoard
    rcases hseed with hthr | hb
    · rw [getSavedColumns_eq_seeds_of_throws (show
        (initState st).storage.accessThrows = true from hthr),
        listArray_setSeeds]
    · by_cases hthr : (initState st).storage.accessThrows = true
      · rw [getSavedColumns_eq_seeds_of_throws hthr, listArray_setSeeds]
      · rw [getSavedColumns_eq_seeds_of_falsy
          (Bool.eq_false_iff.mpr hthr) (show
            cellTruthy (initState st).storage.backlogItems = false from hb),
          listArray_setSeeds]
  · intro hthr hb c hparse
    unfold loadBoard
    rw [getSavedColumns_listArray_truthy (show
        (initState st).storage.accessThrows = false from hthr) (show
        cellTruthy (initState st).storage.backlogItems = true from hb),
      storageCell_initState]
    unfold loadColumn
    rw [hparse]
    rfl

/-- Witness for C2 amended: an absent first key loads the seeds; a
corrupt column value (with the first key present) loads as empty. -/
theorem claim2_amended_witness :
    loadBoard freshStorage Col.backlog = seedArray Col.backlog
    ∧ loadBoard
        ⟨Cell.jsonOf [JItem.jstr "a"], Cell.corrupt, Cell.absent,
          Cell.absent, false⟩ Col.progress = [] :=
  ⟨(claim2_amended freshStorage).1 (Or.inr rfl) Col.backlog,
    (claim2_amended ⟨Cell.jsonOf [JItem.jstr "a"], Cell.corrupt,
      Cell.absent, Cell.absent, false⟩).2 rfl rfl Col.progress rfl⟩

/-- Counterexample to C10 as stated: store the empty string under
`backlogItems`.  The key is present and its value is not valid JSON, yet
`load` does not give the backlog an empty sequence and does not derive
the other columns from their own keys — the empty string is falsy at
`getItem`, so the whole board is reset to the seed defaults. -/
theorem claim10_cex :
    loadBoard ⟨Cell.rawEmpty, Cell.jsonOf [JItem.jstr "x"], Cell.absent,
        Cell.absent, false⟩ Col.backlog = seedArray Col.backlog
    ∧ seedArray Col.backlog ≠ []
    ∧ loadBoard ⟨Cell.rawEmpty, Cell.jsonOf [JItem.jstr "x"], Cell.absent,
        Cell.absent, false⟩ Col.progress = seedArray Col.progress
    ∧ seedArray Col.progress ≠ [JItem.jstr "x"] :=
  ⟨rfl, by decide, rfl, by decide⟩

/-- C10 amended: when the first key is present *with a non-empty value*
(and storage works), `load` derives each column independently from its
own key — a column whose key is absent or whose value does not parse
loads as the empty sequence for that column alone, and a column whose
value parses as an array loads as that array — so corruption of one
column's value never resets the others.  The seed defaults are used only
when `backlogItems` reads back falsy (absent or empty string) or storage
access throws. -/
theorem claim10_amended (st : Storage) (ht : st.accessThrows = false)
    (hb : cellTruthy st.backlogItems = true) :
    (∀ c, loadBoard st c = loadColumn (cellFor st c))
    ∧ (∀ c, safeJSONParse (cellFor st c) = none → loadBoard st c = [])
    ∧ (∀ c l, cellFor st c = Cell.jsonOf l → loadBoard st c = l) := by
  have key : ∀ c, loadBoard st c = loadColumn (cellFor st c) := by
    intro c
    unfold loadBoard
    rw [getSavedColumns_listArray_truthy (show
        (initState st).storage.accessThrows = false from ht) (show
        cellTruthy (initState st).storage.backlogItems = true from hb),
      storageCell_initState]
  refine ⟨key, ?_, ?_⟩
  · intro c hparse
    rw [key c]
    unfold loadColumn
    rw [hparse]
    rfl
  · intro c l hcell
    rw [key c, hcell]
    rfl

/-- Witness for C10 amended at a concrete storage: the backlog key holds
an array, the progress key is corrupt, the complete key is absent and the
on-hold key holds the empty string — each column loads independently. -/
theorem claim10_amended_witness :
    loadBoard ⟨Cell.jsonOf [JItem.jstr "a"], Cell.corrupt, Cell.absent,
        Cell.rawEmpty, false⟩ Col.backlog = [JItem.jstr "a"]
    ∧ loadBoard ⟨Cell.jsonOf [JItem.jstr "a"], Cell.corrupt, Cell.absent,
        Cell.rawEmpty, false⟩ Col.progress = []
    ∧ loadBoard ⟨Cell.jsonOf [JItem.jstr "a"], Cell.corrupt, Cell.absent,
        Cell.rawEmpty, false⟩ Col.complete = [] :=
  ⟨(claim10_amended ⟨Cell.jsonOf [JItem.jstr "a"], Cell.corrupt, Cell.absent,
      Cell.rawEmpty, false⟩ rfl rfl).2.2 Col.backlog [JItem.jstr "a"] rfl,
    (claim10_amended ⟨Cell.jsonOf [JItem.jstr "a"], Cell.corrupt, Cell.absent,
      Cell.rawEmpty, false⟩ rfl rfl).2.1 Col.progress rfl,
    (claim10_amended ⟨Cell.jsonOf [JItem.jstr "a"], Cell.corrupt, Cell.absent,
      Cell.rawEmpty, false⟩ rfl rfl).2.1 Col.complete rfl⟩

/-- Counterexample to C3 as stated: empty the first backlog item's text
while that element is the captured drag source (the skipped-edit race),
then drop it on the progress column.  `rebuildArrays` reads the emptied
text back from the visual tree and `filterArray` only removes `null`
values, so the empty string is persisted under the progress key. -/
theorem claim3_cex :
    storageCell
        (drop (updateItem (dragStart (startup freshStorage) Col.backlog 0) 0
          Col.backlog "") Col.progress) Col.progress
      = Cell.jsonOf [JItem.jstr "Work on projects",
          JItem.jstr "Listen to music", JItem.jstr ""]
    ∧ JItem.jstr "" ∈ [JItem.jstr "Work on projects",
        JItem.jstr "Listen to music", JItem.jstr ""] :=
  ⟨rfl, by decide⟩

/-- C3 amended: in every run of public operations in which no edit that
empties an item's text targets the element currently captured as the drag
source, no persisted column value ever contains the empty string —
`addToColumn` only commits non-empty trimmed text and a committed empty
edit deletes its slot before the filter-and-save step. -/
theorem claim3_noEmptyPersisted {s : AppState} (h : ReachNE s) (c : Col)
    (l : List JItem) (hcell : storageCell s c = Cell.jsonOf l) :
    JItem.jstr "" ∉ l := by
  have hInv := inv_of_reach h
  have hne := noEmpty_of_reach_ne h
  have hcl := (hInv.2.2 c).1
  have henc := (hInv.2.2 c).2
  rw [storeEncode_of_clean hcl] at henc
  rw [henc] at hcell
  have hl : listArray s c = l := Cell.jsonOf.inj hcell
  rw [← hl]
  exact hne.1 c

/-- Witness for C3 at the initial state. -/
theorem claim3_noEmptyPersisted_witness :
    JItem.jstr "" ∉ [JItem.jstr "Release the course",
      JItem.jstr "Sit back and relax"] :=
  claim3_noEmptyPersisted Reach.init Col.backlog
    [JItem.jstr "Release the course", JItem.jstr "Sit back and relax"] rfl

/-- Counterexample to C9 as stated: an `editItem` call that is skipped by
the active-drag guard returns with the edited element's visual text
diverging from the in-memory sequence (and hence from the persisted
value), so visible and persisted state are not consistent at that handler
exit. -/
theorem claim9_cex :
    ¬ Consistent (updateItem (dragStart (startup freshStorage) Col.backlog 0)
        0 Col.backlog "X") := by
  intro h
  obtain ⟨l, h1, h2, h3⟩ := h Col.backlog
  have h2' : (["X", "Sit back and relax"] : List String) = l := h2
  rw [← h2'] at h1
  exact absurd h1 (by decide)

theorem consistent_updateDOM_of_updated {s : AppState}
    (hu : s.updatedOnLoad = true) (ht : s.storage.accessThrows = false)
    (hnn : ∀ c, NoNull (listArray s c)) : Consistent (updateDOM s) :=
  consistent_updateDOM ht (by rw [checkLoad_of_updated hu]; exact hnn)

/-- C9 amended: from any reachable state, after `addToColumn` returns,
after `drop` returns, and after any `updateItem` that is not skipped by
the active-drag guard returns, every column's persisted slot equals the
JSON encoding of its in-memory sequence, which in turn matches the
rendered visual order — render-then-persist runs inside the same handler.
(The one exception, refuted separately, is a skipped `updateItem`, which
mutates nothing but leaves the dragged element's typed text visible.) -/
theorem claim9_renderPersist {s : AppState} (h : ReachFull s) :
    (∀ c raw, Consistent (addToColumn s c raw))
    ∧ (∀ tgt, Consistent (drop s tgt))
    ∧ (∀ i c t, i < (listColumn s c).length →
        s.draggedItem ≠ some (c, i) → Consistent (updateItem s i c t)) := by
  have hInv := inv_of_reach h
  have hD := dragInv_of_reach h
  refine ⟨?_, ?_, ?_⟩
  · intro c raw
    unfold addToColumn
    dsimp only
    split
    · refine consistent_updateDOM_of_updated ?_ ?_ ?_
      · rw [updatedOnLoad_setListArray]
        exact hInv.1
      · rw [storage_setListArray]
        exact hInv.2.1
      · intro x
        by_cases hc : x = c
        · subst hc
          rw [listArray_setListArray_self]
          intro hmem
          rcases List.mem_append.1 hmem with hmem' | hmem'
          · rw [listArray_withAlerts] at hmem'
            exact clean_noNull (hInv.2.2 x).1 hmem'
          · simp at hmem'
        · rw [listArray_setListArray_ne _ _ hc, listArray_withAlerts]
          exact clean_noNull (hInv.2.2 x).1
    · refine consistent_updateDOM_of_updated (by exact hInv.1)
        (by exact hInv.2.1) ?_
      intro x
      rw [listArray_withAlerts]
      exact clean_noNull (hInv.2.2 x).1
  · intro tgt
    unfold drop
    cases hd : s.draggedItem with
    | none => exact hD.2 hd
    | some p =>
      obtain ⟨src, i⟩ := p
      dsimp only
      rw [dif_pos (hD.1 src i hd)]
      refine consistent_updateDOM_of_updated ?_ ?_ ?_
      · rw [updatedOnLoad_rebuildStep, updatedOnLoad_setListColumn,
          updatedOnLoad_setListColumn]
        exact hInv.1
      · rw [storage_rebuildStep, storage_setListColumn, storage_setListColumn]
        exact hInv.2.1
      · intro x
        rw [listArray_rebuildStep]
        exact clean_noNull ⟨_, rfl⟩
  · intro i c t _hi hnd
    unfold updateItem
    dsimp only
    rw [if_neg (by rw [draggedItem_setListColumn]; exact hnd)]
    have hupd : ∀ l : List JItem,
        (setListArray (setListColumn s c ((listColumn s c).set i t)) c
          l).updatedOnLoad = true := by
      intro l
      rw [updatedOnLoad_setListArray, updatedOnLoad_setListColumn]
      exact hInv.1
    have hstor : ∀ l : List JItem,
        (setListArray (setListColumn s c ((listColumn s c).set i t)) c
          l).storage.accessThrows = false := by
      intro l
      rw [storage_setListArray, storage_setListColumn]
      exact hInv.2.1
    have hnn : ∀ (y : JItem), y ≠ JItem.jnull → ∀ x,
        NoNull (listArray
          (setListArray (setListColumn s c ((listColumn s c).set i t)) c
            (List.set
              (listArray (setListColumn s c ((listColumn s c).set i t)) c)
              i y)) x) := by
      intro y hy x
      by_cases hc : x = c
      · subst hc
        rw [listArray_setListArray_self, listArray_setListColumn]
        intro hmem
        rcases List.mem_or_eq_of_mem_set hmem with hmem' | he
        · exact clean_noNull (hInv.2.2 x).1 hmem'
        · exact hy he.symm
      · rw [listArray_setListArray_ne _ _ hc, listArray_setListColumn]
        exact clean_noNull (hInv.2.2 x).1
    split
    · exact consistent_updateDOM_of_updated (hupd _) (hstor _)
        (hnn JItem.hole (by simp))
    · exact consistent_updateDOM_of_updated (hupd _) (hstor _)
        (hnn (JItem.jstr t) (by simp))

/-- Witness for C9 at a concrete reachable state and operation. -/
theorem claim9_renderPersist_witness :
    ∃ l : List String,
      listArray (addToColumn (startup freshStorage) Col.backlog "hi")
          Col.progress = l.map JItem.jstr
      ∧ listColumn (addToColumn (startup freshStorage) Col.backlog "hi")
          Col.progress = l
      ∧ storageCell (addToColumn (startup freshStorage) Col.backlog "hi")
          Col.progress = Cell.jsonOf (l.map JItem.jstr) :=
  (claim9_renderPersist Reach.init).1 Col.backlog "hi" Col.progress

/-- Witness for C8 at a concrete input. -/
theorem claim8_editSkipped_witness :
    (∀ x, listArray
        (updateItem (dragStart (startup freshStorage) Col.backlog 0) 0
          Col.backlog "whatever") x
      = listArray (dragStart (startup freshStorage) Col.backlog 0) x)
    ∧ (updateItem (dragStart (startup freshStorage) Col.backlog 0) 0
        Col.backlog "whatever").storage
      = (dragStart (startup freshStorage) Col.backlog 0).storage :=
  claim8_editSkipped "whatever" rfl

end Kanban
